import Mathlib

/-!
Verification development for the fornlamningar record normalization and
enrichment engine.  The Python sources are shallowly embedded as Lean
functions: `test_description_generation.py` (field parser, quality scorer,
sample pipeline), `enrich_filtered_db.py` (graph resolver, enrichment
orchestrator, store updates) and `src/api_utils.py` (retrying HTTP client).
Strings are modelled by Lean `String`/`List Char`; Python dicts holding
string values by insertion-ordered association lists.
-/

namespace Fornlamningar

/-! ## Python string primitives -/

/-- The whitespace characters of Python `str.strip` / `\s` (ASCII subset,
which covers every character produced or tested by this code base). -/
def pyIsSpace (c : Char) : Bool :=
  c == ' ' || c == '\t' || c == '\n' || c == '\x0d' || c == '\x0b' || c == '\x0c'

/-- Python `str.lower`, restricted to ASCII letters plus the non-ASCII
letters occurring in the repository's vocabularies (Swedish text). -/
def lowerChar (c : Char) : Char :=
  if 'A' ≤ c && c ≤ 'Z' then Char.ofNat (c.toNat + 32)
  else if c = 'Å' then 'å'
  else if c = 'Ä' then 'ä'
  else if c = 'Ö' then 'ö'
  else if c = 'É' then 'é'
  else if c = 'Ü' then 'ü'
  else c

def strLower (s : String) : String := String.mk (s.data.map lowerChar)

/-- A word character for the purpose of the regex `\b` boundary (`\w`):
alphanumerics, underscore, and the non-ASCII letters used here. -/
def wordChar (c : Char) : Bool :=
  c.isAlphanum || c == '_' ||
    c == 'å' || c == 'ä' || c == 'ö' || c == 'é' || c == 'ü' ||
    c == 'Å' || c == 'Ä' || c == 'Ö' || c == 'É' || c == 'Ü'

def pyStripChars (l : List Char) : List Char :=
  ((l.dropWhile pyIsSpace).reverse.dropWhile pyIsSpace).reverse

def pyStrip (s : String) : String := String.mk (pyStripChars s.data)

def pyLstrip (s : String) : String := String.mk (s.data.dropWhile pyIsSpace)

def pyRstripChars (l : List Char) : List Char :=
  (l.reverse.dropWhile pyIsSpace).reverse

def pyRstrip (s : String) : String := String.mk (pyRstripChars s.data)

/-- Python `str.splitlines` (modelled for the `\n` separator, the only line
separator appearing in this code base): a trailing newline produces no
final empty line. -/
def splitLinesChars : List Char → List Char → List String
  | [], acc => if acc.isEmpty then [] else [String.mk acc.reverse]
  | c :: rest, acc =>
    if c == '\n' then String.mk acc.reverse :: splitLinesChars rest []
    else splitLinesChars rest (c :: acc)

def pySplitlines (s : String) : List String := splitLinesChars s.data []

/-- Python `str.split(sep)` for a one-character separator: always emits the
final (possibly empty) piece, so `"".split` gives `[""]`. -/
def splitOnCharAux (sep : Char) : List Char → List Char → List String
  | [], acc => [String.mk acc.reverse]
  | c :: rest, acc =>
    if c == sep then String.mk acc.reverse :: splitOnCharAux sep rest []
    else splitOnCharAux sep rest (c :: acc)

def splitOnChar (sep : Char) (s : String) : List String := splitOnCharAux sep s.data []

/-- Python substring containment (`pat in s`). -/
def listContains (pat : List Char) : List Char → Bool
  | [] => pat.isPrefixOf []
  | c :: rest => pat.isPrefixOf (c :: rest) || listContains pat rest

example : listContains "äv".data "Se även".data = true := by decide
example : listContains "x".data "Se även".data = false := by decide

/-! ## Regex machinery for the fixed patterns of the scorer -/

/-- `\b` before the current position: satisfied at the start of the text or
after a non-word character (all patterns here begin with a word char). -/
def boundaryOk (prev : Option Char) : Bool :=
  match prev with
  | none => true
  | some c => !(wordChar c)

/-- Word-bounded literal match at the head of `s` (pattern = `\bpat\b` with
`pat` a lowercase literal, text already lowercased). -/
def wordMatchAt (pat : List Char) (prev : Option Char) (s : List Char) : Bool :=
  boundaryOk prev && pat.isPrefixOf s &&
    (match s.drop pat.length with
     | [] => true
     | d :: _ => !(wordChar d))

/-- `re.search` for a word-bounded literal pattern. -/
def wordSearchFrom (pat : List Char) : Option Char → List Char → Bool
  | _, [] => false
  | prev, c :: rest => wordMatchAt pat prev (c :: rest) || wordSearchFrom pat (some c) rest

def reWordSearch (pat text : String) : Bool := wordSearchFrom pat.data none text.data

example : reWordSearch "ej synlig" (strLower "Ej synlig ovan mark") = true := by decide
example : reWordSearch "undermark" "xundermark" = false := by decide

/-! ### `MEASURE_PAT = \b\d+(?:[\.,]\d+)?\s*(?:m|meter|cm|mm)\b` (IGNORECASE)

The alternatives are tried in the regex's order (`m`, `meter`, `cm`, `mm`);
an alternative only succeeds if the trailing `\b` holds, which reproduces
the backtracking of the Python engine.  The greedy `\d+`, optional decimal
group and `\s*` never need to backtrack because the characters that follow
them in the pattern (units) are neither digits, separators nor spaces. -/

/-- Try one unit alternative (lowercase literal `u`) with its trailing
word boundary against the head of `l` (case-insensitively). -/
def tryUnit (u : List Char) (l : List Char) : Option (List Char × List Char) :=
  if (l.take u.length).map lowerChar == u then
    match l.drop u.length with
    | [] => some (l.take u.length, [])
    | d :: rest => if wordChar d then none else some (l.take u.length, d :: rest)
  else none

def unitMatch (l : List Char) : Option (List Char × List Char) :=
  (tryUnit ['m'] l).orElse fun _ =>
    (tryUnit ['m', 'e', 't', 'e', 'r'] l).orElse fun _ =>
      (tryUnit ['c', 'm'] l).orElse fun _ =>
        tryUnit ['m', 'm'] l

/-- The optional `(?:[\.,]\d+)?` decimal group: returns the consumed
characters and the remainder. -/
def decimalPart (l : List Char) : List Char × List Char :=
  match l with
  | [] => ([], [])
  | c :: rest =>
    if (c == '.' || c == ',') && !(rest.takeWhile Char.isDigit).isEmpty then
      (c :: rest.takeWhile Char.isDigit, rest.drop (rest.takeWhile Char.isDigit).length)
    else ([], c :: rest)

/-- Match `MEASURE_PAT` anchored at the head of `s` (with `prev` the
preceding character, for `\b`); returns the matched text and remainder. -/
def measureMatchAt (prev : Option Char) (s : List Char) : Option (List Char × List Char) :=
  if !boundaryOk prev then none
  else
    let ds := s.takeWhile Char.isDigit
    if ds.isEmpty then none
    else
      let r1 := s.drop ds.length
      let dec := decimalPart r1
      let sp := dec.2.takeWhile pyIsSpace
      let r3 := dec.2.drop sp.length
      match unitMatch r3 with
      | none => none
      | some u => some (ds ++ dec.1 ++ sp ++ u.1, u.2)

/-- `re.findall` scan for `MEASURE_PAT`: leftmost, non-overlapping.  The
fuel starts at the text length; every step consumes at least one character,
so the fuel never cuts a scan short. -/
def measureScan : Nat → Option Char → List Char → List (List Char)
  | 0, _, _ => []
  | _ + 1, _, [] => []
  | fuel + 1, prev, c :: rest =>
    match measureMatchAt prev (c :: rest) with
    | some (m, r) => m :: measureScan fuel (some (m.getLastD c)) r
    | none => measureScan fuel (some c) rest

/-- `MEASURE_PAT.findall(desc)` as the list of matched substrings. -/
def measureMatches (s : String) : List String :=
  (measureScan s.data.length none s.data).map String.mk

example : measureMatches "Rund stensättning, 5 m diam, 0,5 m hög." = ["5 m", "0,5 m"] := by decide
example : measureMatches "12meter 3 cm x4 mm 7 mmx" = ["12meter", "3 cm"] := by decide

/-! ### Disclaimer patterns (`DISCLAIMER_REGEX`, IGNORECASE)

`Beskrivningen är inte kvalitetssäkrad\.?`,
`Information kan saknas, vara felaktig eller inaktuell\.?`,
`Se även\s+Inventeringsbok\.?`.  The optional trailing period never affects
whether a match exists, only its extent. -/

def disclaimerLit1 : List Char := "beskrivningen är inte kvalitetssäkrad".data
def disclaimerLit2 : List Char := "information kan saknas, vara felaktig eller inaktuell".data
def seAvenLit : List Char := "se även".data
def invBokLit : List Char := "inventeringsbok".data

/-- Match `Se även\s+Inventeringsbok` at the head of an already-lowercased
text (the literal that follows `\s+` starts with a non-space, so the greedy
whitespace run never backtracks). -/
def seAvenMatchAt (l : List Char) : Option (List Char) :=
  if seAvenLit.isPrefixOf l then
    let r := l.drop seAvenLit.length
    let sp := r.takeWhile pyIsSpace
    if sp.isEmpty then none
    else
      let r2 := r.drop sp.length
      if invBokLit.isPrefixOf r2 then some (r2.drop invBokLit.length) else none
  else none

def seAvenSearch : List Char → Bool
  | [] => false
  | c :: rest => (seAvenMatchAt (c :: rest)).isSome || seAvenSearch rest

/-- `DISCLAIMER_REGEX.search(s)` as existence of a match. -/
def disclaimerFound (s : String) : Bool :=
  let low := s.data.map lowerChar
  listContains disclaimerLit1 low || listContains disclaimerLit2 low || seAvenSearch low

/-- One alternation step of `DISCLAIMER_REGEX` anchored at the head of the
text: compares the lowercased head against each alternative in order and
consumes the greedy optional period.  Works on the original characters so
the substitution can keep unmatched text verbatim. -/
def disclaimerMatchAt (l : List Char) : Option (List Char) :=
  let low := l.map lowerChar
  let afterDot := fun (r : List Char) =>
    match r with
    | '.' :: r2 => r2
    | r2 => r2
  if disclaimerLit1.isPrefixOf low then
    some (afterDot (l.drop disclaimerLit1.length))
  else if disclaimerLit2.isPrefixOf low then
    some (afterDot (l.drop disclaimerLit2.length))
  else
    match seAvenMatchAt low with
    | some rest => some (afterDot (l.drop (l.length - rest.length)))
    | none => none

/-- `DISCLAIMER_REGEX.sub("", s)`: delete every non-overlapping match. -/
def disclaimerSubScan : Nat → List Char → List Char
  | 0, l => l
  | _ + 1, [] => []
  | fuel + 1, c :: rest =>
    match disclaimerMatchAt (c :: rest) with
    | some r => disclaimerSubScan fuel r
    | none => c :: disclaimerSubScan fuel rest

/-- `strip_disclaimers` from `test_description_generation.py`. -/
def strip_disclaimers (s : String) : String :=
  pyStrip (String.mk (disclaimerSubScan s.data.length s.data))

example : strip_disclaimers "Rund. Beskrivningen är inte kvalitetssäkrad. Fin." = "Rund.  Fin." := by decide
example : strip_disclaimers "" = "" := by rfl

/-! ### `URL_REGEX = https?://\S+` (IGNORECASE) -/

/-- Match `https?://\S+` at the head of `l`; returns the remainder.  The
`s?` is greedy but the two alternatives can never both apply at one
position (after `http` the next char is `s` xor `:`). -/
def urlMatchAt (l : List Char) : Option (List Char) :=
  if ((l.take 8).map lowerChar == "https://".data) then
    let ns := (l.drop 8).takeWhile (fun c => !pyIsSpace c)
    if ns.isEmpty then none else some ((l.drop 8).drop ns.length)
  else if ((l.take 7).map lowerChar == "http://".data) then
    let ns := (l.drop 7).takeWhile (fun c => !pyIsSpace c)
    if ns.isEmpty then none else some ((l.drop 7).drop ns.length)
  else none

def urlSubScan : Nat → List Char → List Char
  | 0, l => l
  | _ + 1, [] => []
  | fuel + 1, c :: rest =>
    match urlMatchAt (c :: rest) with
    | some r => urlSubScan fuel r
    | none => c :: urlSubScan fuel rest

/-- `URL_REGEX.sub("", s)`. -/
def urlSub (s : String) : String := String.mk (urlSubScan s.data.length s.data)

example : urlSub "se https://x.se/a sida" = "se  sida" := by decide
example : urlSub "ingen länk" = "ingen länk" := by decide

/-! ## Insertion-ordered string dictionaries (Python `dict`) -/

def assocLookup (l : List (String × String)) (k : String) : Option String :=
  match l with
  | [] => none
  | (k', v) :: t => if k' == k then some v else assocLookup t k

def assocGetD (l : List (String × String)) (k d : String) : String :=
  (assocLookup l k).getD d

/-- Python `d[k] = v`: overwrite in place if present, else append. -/
def assocSet (l : List (String × String)) (k v : String) : List (String × String) :=
  match l with
  | [] => [(k, v)]
  | (k', v') :: t => if k' == k then (k, v) :: t else (k', v') :: assocSet t k v

/-! ## `FIELD_MAP` and `parse_record` (`test_description_generation.py`) -/

def FIELD_MAP : List (String × String) :=
  [("Class", "class"), ("Klass", "class"),
   ("Skadestatus", "damage_status"),
   ("Undersökningsstatus", "exam_status"),
   ("Beskrivning", "description_sv"),
   ("Placering", "placement"),
   ("Terräng", "terrain"),
   ("Orientering", "orientation"),
   ("Province", "province_line"), ("County", "province_line"),
   ("Municipality", "province_line"), ("Parish", "province_line"),
   ("Aktualitetsstatus", "actuality_status"),
   ("Antikvarisk bedömning", "antiquarian_assessment"),
   ("Lämningsnummer", "lamningsnummer"),
   ("RAÄ-nummer", "raa_number"),
   ("Organization", "organization"),
   ("Build Date", "build_date"),
   ("Last Changed", "last_changed"),
   ("URL", "url"),
   ("Title", "title"),
   ("Tradition", "tradition"),
   ("Referens", "reference"), ("References", "reference")]

def fieldMapLookup (field : String) : Option String := assocLookup FIELD_MAP field

/-- Parser state: accumulated result dict, the open section's canonical
key, and the line buffer. -/
structure PState where
  result : List (String × String)
  currentKey : Option String
  buf : List String
deriving Repr

def joinNL : List String → String
  | [] => ""
  | [x] => x
  | x :: xs => x ++ "\n" ++ joinNL xs

/-- The `flush()` closure: writes the open section (trimmed; appended after
a line break when the canonical key already holds a non-empty value). -/
def flushState (st : PState) : PState :=
  match st.currentKey with
  | none => { result := st.result, currentKey := none, buf := [] }
  | some k =>
    let value := pyStrip (joinNL st.buf)
    if value == "" then { result := st.result, currentKey := none, buf := [] }
    else
      match assocLookup st.result k with
      | some old =>
        if old ≠ "" then
          { result := assocSet st.result k (old ++ "\n" ++ value), currentKey := none, buf := [] }
        else
          { result := assocSet st.result k value, currentKey := none, buf := [] }
      | none => { result := st.result ++ [(k, value)], currentKey := none, buf := [] }

/-- `line.split(":", 1)` when a colon is present. -/
def splitFirstColon (s : String) : Option (String × String) :=
  if s.data.contains ':' then
    some (String.mk (s.data.takeWhile (fun c => !(c == ':'))),
          String.mk ((s.data.dropWhile (fun c => !(c == ':'))).tail))
  else none

def appendBufLine (st : PState) (line : String) : PState :=
  match st.currentKey with
  | none => st
  | some k => { result := st.result, currentKey := some k, buf := st.buf ++ [line] }

/-- The body of `parse_record`'s per-line loop. -/
def stepLine (st : PState) (raw : String) : PState :=
  let line := pyStrip raw
  if line == "" then
    match st.currentKey with
    | some k => { result := st.result, currentKey := some k, buf := st.buf ++ [""] }
    | none => st
  else
    match splitFirstColon line with
    | some fr =>
      match fieldMapLookup (pyStrip fr.1) with
      | some key =>
        let st' := flushState st
        { result := st'.result, currentKey := some key, buf := [pyLstrip fr.2] }
      | none => appendBufLine st line
    | none => appendBufLine st line

/-- The line loop of `parse_record` (before post-processing). -/
def rawParse (text : String) : List (String × String) :=
  let lines := (pySplitlines text).map pyRstrip
  (flushState (lines.foldl stepLine { result := [], currentKey := none, buf := [] })).result

/-- Post-processing step 1: split the combined `province_line` into
subfields.  The composite entry itself is left in the dict (the source has
no deletion). -/
def provincePartStep (r : List (String × String)) (p : String) : List (String × String) :=
  match splitFirstColon p with
  | some kv =>
    let k := strLower (pyStrip kv.1)
    let v := pyStrip kv.2
    if k == "province" then assocSet r "province" v
    else if k == "county" then assocSet r "county" v
    else if k == "municipality" then assocSet r "municipality" v
    else if k == "parish" then assocSet r "parish" v
    else r
  | none => r

def postProvince (res : List (String × String)) : List (String × String) :=
  match assocLookup res "province_line" with
  | none => res
  | some pl => ((splitOnChar '|' pl).map pyStrip).foldl provincePartStep res

/-- Post-processing step 2: strip URLs (and surrounding whitespace) from
the free-text fields. -/
def urlFieldKeys : List String :=
  ["description_sv", "terrain", "orientation", "placement", "reference", "tradition", "title"]

def urlFieldStep (r : List (String × String)) (k : String) : List (String × String) :=
  match assocLookup r k with
  | some v => assocSet r k (pyStrip (urlSub v))
  | none => r

def postUrls (res : List (String × String)) : List (String × String) :=
  urlFieldKeys.foldl urlFieldStep res

/-- `parse_record` from `test_description_generation.py`. -/
def parse_record (text : String) : List (String × String) :=
  postUrls (postProvince (rawParse text))

example :
    parse_record "Klass: Stensättning\nBeskrivning: Rund stensättning, 5 m diam, 0,5 m hög.\nPlacering: Synlig ovan mark på hygge.\n" =
      [("class", "Stensättning"),
       ("description_sv", "Rund stensättning, 5 m diam, 0,5 m hög."),
       ("placement", "Synlig ovan mark på hygge.")] := by decide

example :
    parse_record "County: A | Province: B" =
      [("province_line", "A | Province: B"), ("province", "B")] := by decide

/-! ## Deterministic visibility / condition (`test_description_generation.py`)

The pattern lists are written lowercased; `compute_visibility` lowercases
the placement text and the Python code searches with `re.IGNORECASE`, so
matching the lowercase literals is equivalent. -/

def VIS_VISIBLE_PATTERNS : List String := ["synlig ovan mark", "tydligt synlig"]

def VIS_NOT_VISIBLE_PATTERNS : List String :=
  ["ej synlig", "undermark", "under mark", "övertäckt"]

/-- `compute_visibility(parsed)`; the early-returning pattern loops become
`List.any`. -/
def compute_visibility (parsed : List (String × String)) : Nat :=
  let text := strLower (assocGetD parsed "placement" "")
  if VIS_NOT_VISIBLE_PATTERNS.any (fun p => reWordSearch p text) then 0
  else if VIS_VISIBLE_PATTERNS.any (fun p => reWordSearch p text) then 2
  else 1

/-- `disclaimers_present(original_text, parsed)`. -/
def disclaimers_present (original : String) (parsed : List (String × String)) : Bool :=
  disclaimerFound original || disclaimerFound (assocGetD parsed "description_sv" "")

def FEATURE_HINTS : List String :=
  ["kantkedja", "rest sten", "stenkista", "mittgrop", "kerb", "cist",
   "skyttevärn", "häll", "hällrist", "älvkvarn", "kantställd", "vall",
   "röse", "stensättning", "tomtning"]

/-- `sum(1 for h in FEATURE_HINTS if h in low)`: one per hint keyword found
as a substring of the lowercased description. -/
def hintCount (desc_sv : String) : Nat :=
  (FEATURE_HINTS.filter (fun h => listContains h.data (desc_sv.data.map lowerChar))).length

/-- `detail_score(desc_sv)`. -/
def detail_score (desc_sv : String) : Nat :=
  if desc_sv == "" then 0
  else min 5 (measureMatches desc_sv).length + hintCount desc_sv

/-- `compute_condition(original_text, parsed)` (the source's final
`score <= 1` and default branches both return 1 and are kept as written). -/
def compute_condition (original : String) (parsed : List (String × String)) : Nat :=
  let has_disclaimer := disclaimers_present original parsed
  let desc_sv := assocGetD parsed "description_sv" ""
  let score := detail_score desc_sv
  if pyStrip desc_sv == "" then 0
  else if has_disclaimer then 0
  else if 4 ≤ score then 2
  else if score ≤ 1 then 1
  else 1

example :
    compute_visibility [("placement", "Synlig ovan mark på hygge.")] = 2 := by decide
example :
    compute_condition "x" [("description_sv", "Rund stensättning, 5 m diam, 0,5 m hög.")] = 1 := by
  decide

/-! ## Sample pipeline (`build_description_input`, `process_samples`)

`RAA_CLASS_MAPPING` is imported from `src.raa_class_mapping`, a module not
present in the tree; it is treated as an arbitrary map parameter (no claim
depends on its contents).  The Ollama summarizer is an external service,
modelled as an opaque function of the model input; the result records
whether it was invoked. -/

def build_description_input (raaMap : String → Option String)
    (parsed : List (String × String)) : String :=
  let cls_sv := pyStrip (assocGetD parsed "class" "")
  let cls_line :=
    match raaMap cls_sv with
    | some en => if en == "" then cls_sv else cls_sv ++ " (" ++ en ++ ")"
    | none => cls_sv
  let desc_sv := strip_disclaimers (assocGetD parsed "description_sv" "")
  let terrain := pyStrip (assocGetD parsed "terrain" "")
  let orientation := pyStrip (assocGetD parsed "orientation" "")
  if desc_sv == "" then ""
  else
    joinNL ((if cls_line == "" then [] else [cls_line]) ++
      ["Description (sv): " ++ desc_sv] ++
      (if terrain == "" then [] else ["Terrain (sv): " ++ terrain]) ++
      (if orientation == "" then [] else ["Orientation (sv): " ++ orientation]))

/-- `out.strip().replace("\n", " ")` from `generate_clean_description`. -/
def cleanLLMOutput (s : String) : String :=
  String.mk ((pyStrip s).data.map (fun c => if c == '\n' then ' ' else c))

structure SampleResult where
  description : String
  visibility : Nat
  condition_known : Nat
  llmCalled : Bool
deriving DecidableEq, Repr

/-- One iteration of `process_samples` (the per-record `try` body; the
exception handler is unreachable in this pure model). -/
def process_sample (raaMap : String → Option String) (llm : String → String)
    (orig : String) : SampleResult :=
  let parsed := parse_record orig
  let desc_input := build_description_input raaMap parsed
  if pyStrip desc_input == "" then
    { description := "missing", visibility := 0, condition_known := 0, llmCalled := false }
  else
    { description := cleanLLMOutput (llm desc_input),
      visibility := compute_visibility parsed,
      condition_known := compute_condition orig parsed,
      llmCalled := true }

/-! ## JSON documents and the graph resolver (`enrich_filtered_db.py`)

A parsed JSON value as the resolver consumes it: nulls, strings, objects
(insertion-ordered key/value lists) and arrays.  Attribute accesses of the
shape `x.get(k, {}).get("@value")` are modelled by `getValueField`;
accesses that would raise `AttributeError` on type-confused data (a
non-dict where a dict is expected) are outside the modelled behaviours and
return `none`. -/

inductive Json where
  | null
  | str (s : String)
  | obj (fields : List (String × Json))
  | arr (elems : List Json)
deriving Repr

def jLookup (fields : List (String × Json)) (k : String) : Option Json :=
  match fields with
  | [] => none
  | (k', v) :: t => if k' == k then some v else jLookup t k

def jget (j : Json) (k : String) : Option Json :=
  match j with
  | Json.obj fields => jLookup fields k
  | _ => none

/-- Python truthiness of a JSON value. -/
def jTruthy (j : Json) : Bool :=
  match j with
  | Json.null => false
  | Json.str s => !(s == "")
  | Json.obj fields => !fields.isEmpty
  | Json.arr elems => !elems.isEmpty

/-- `"@graph" in api_data` (key membership; non-dict documents are outside
the modelled inputs and count as lacking the key). -/
def jHasKey (j : Json) (k : String) : Bool := (jget j k).isSome

/-- f-string rendering of a JSON value (`None` for null, the text of a
string; composite values never reach a rendering in the modelled data). -/
def pyStr (j : Json) : String :=
  match j with
  | Json.null => "None"
  | Json.str s => s
  | Json.obj _ => "<dict>"
  | Json.arr _ => "<list>"

/-- `entity.get(k, {}).get("@value")`. -/
def getValueField (e : Json) (k : String) : Option Json :=
  match jget e k with
  | some (Json.obj fields) => jLookup fields "@value"
  | _ => none

/-- The `entities` index built from `@graph`; a duplicated `@id` keeps the
last occurrence, as Python dict insertion does. -/
def entityIndexLookup (graph : List Json) (idStr : String) : Option Json :=
  graph.foldl
    (fun acc e =>
      match jget e "@id" with
      | some (Json.str s) => if s == idStr then some e else acc
      | _ => acc)
    none

def raaLamningNs : String := "http://kulturarvsdata.se/raa/lamning/"

/-- The main-entity test of `extract_enhanced_description`:
`isinstance(entity.get("@id"), str)` and the namespace check. -/
def entMatchesResolver (e : Json) : Bool :=
  match jget e "@id" with
  | some (Json.str s) => s.startsWith raaLamningNs
  | _ => false

/-- One reference-following block (`ksam:itemDescription` /
`ksam:itemSpecification` / `ksam:itemNumber`): resolve each `{"@id": ...}`
entry through the index, drop missing targets and empty contents, format
as `"{type}: {content}"`. -/
def refParts (graph : List Json) (main : Json) (listKey contentKey : String) : List String :=
  let refs :=
    match jget main listKey with
    | some (Json.arr l) => l
    | _ => []
  refs.flatMap fun r =>
    match jget r "@id" with
    | some (Json.str idS) =>
      (match entityIndexLookup graph idS with
       | some e =>
         let tyStr :=
           match getValueField e "ksam:type" with
           | some tv => pyStr tv
           | none => "Unknown"
         (match getValueField e contentKey with
          | some cv => if jTruthy cv then [tyStr ++ ": " ++ pyStr cv] else []
          | none => [])
       | none => [])
    | _ => []

def geoPart (ce : Json) (k label : String) : List String :=
  match getValueField ce k with
  | some v => if jTruthy v then [label ++ ": " ++ pyStr v] else []
  | none => []

def contextParts (graph : List Json) (main : Json) : List String :=
  match jget main "ksam:context" with
  | some ctxRef =>
    if jTruthy ctxRef then
      match jget ctxRef "@id" with
      | some (Json.str idS) =>
        (match entityIndexLookup graph idS with
         | some ce =>
           let geo := geoPart ce "ksam:provinceName" "Province" ++
             geoPart ce "ksam:countyName" "County" ++
             geoPart ce "ksam:municipalityName" "Municipality" ++
             geoPart ce "ksam:parishName" "Parish"
           if geo.isEmpty then [] else [String.intercalate " | " geo]
         | none => [])
      | _ => []
    else []
  | none => []

def scalarPart (main : Json) (k label : String) : List String :=
  match jget main k with
  | some v => if jTruthy v then [label ++ ": " ++ pyStr v] else []
  | none => []

def wrappedPart (main : Json) (k label : String) : List String :=
  match getValueField main k with
  | some v => if jTruthy v then [label ++ ": " ++ pyStr v] else []
  | none => []

/-- `DatabaseEnricher.extract_enhanced_description` (the `field_stats`
tallies are mutations of run statistics that do not affect the returned
string and are not modelled). -/
def extract_enhanced_description (api_data : Json) : String :=
  if !jTruthy api_data || !jHasKey api_data "@graph" then "No data available"
  else
    let graph :=
      match jget api_data "@graph" with
      | some (Json.arr l) => l
      | _ => []
    match graph.find? entMatchesResolver with
    | none => "Main entity not found"
    | some main =>
      let parts :=
        scalarPart main "ksam:itemTitle" "Title" ++
        wrappedPart main "ksam:itemClassName" "Class" ++
        refParts graph main "ksam:itemDescription" "ksam:desc" ++
        contextParts graph main ++
        refParts graph main "ksam:itemSpecification" "ksam:spec" ++
        refParts graph main "ksam:itemNumber" "ksam:number" ++
        wrappedPart main "ksam:serviceOrganization" "Organization" ++
        scalarPart main "ksam:buildDate" "Build Date" ++
        scalarPart main "ksam:lastChangedDate" "Last Changed" ++
        scalarPart main "ksam:url" "URL"
      if parts.isEmpty then "No description available"
      else String.intercalate "\n\n" parts

example :
    extract_enhanced_description (Json.obj []) = "No data available" := by rfl
set_option maxRecDepth 4000 in
example :
    extract_enhanced_description
      (Json.obj [("@graph", Json.arr [Json.obj [("@id", Json.str "http://other/x")]])]) =
      "Main entity not found" := by decide

/-! ## Enrichment data extraction and the per-record store update -/

def jsonEscapeChar (c : Char) : String :=
  if c == '"' then "\\\""
  else if c == '\\' then "\\\\"
  else if c == '\n' then "\\n"
  else String.mk [c]

def jsonEscape (s : String) : String := String.join (s.data.map jsonEscapeChar)

mutual

/-- `json.dumps(..., ensure_ascii=False)` on the modelled JSON values. -/
def json_dumps : Json → String
  | Json.null => "null"
  | Json.str s => "\"" ++ jsonEscape s ++ "\""
  | Json.arr l => "[" ++ String.intercalate ", " (json_dumpsList l) ++ "]"
  | Json.obj fs => "\x7b" ++ String.intercalate ", " (json_dumpsFields fs) ++ "\x7d"

def json_dumpsList : List Json → List String
  | [] => []
  | j :: t => json_dumps j :: json_dumpsList t

def json_dumpsFields : List (String × Json) → List String
  | [] => []
  | (k, v) :: t => ("\"" ++ jsonEscape k ++ "\": " ++ json_dumps v) :: json_dumpsFields t

end

structure EnrichmentData where
  itemKeyword : Option String := none
  itemTitle : Option String := none
  description : Option String := none
deriving DecidableEq, Repr

/-- The main-entity test of `extract_enrichment_data`
(`isinstance(entity, dict)` plus `entity.get("@id", "").startswith(...)`). -/
def entMatchesData (e : Json) : Bool :=
  match e with
  | Json.obj _ =>
    (match jget e "@id" with
     | some (Json.str s) => s.startsWith raaLamningNs
     | _ => false)
  | _ => false

/-- `DatabaseEnricher.extract_enrichment_data`: when no main entity is
found the empty `EnrichmentData()` is returned (all fields `None`);
otherwise every field is computed.  `itemTitle` is stored as fetched
(rendered to the column's string form). -/
def extract_enrichment_data (api_response : Json) : EnrichmentData :=
  let graph :=
    match jget api_response "@graph" with
    | some (Json.arr l) => l
    | _ => []
  match graph.find? entMatchesData with
  | none => {}
  | some main =>
    let itemKeyword :=
      match jget main "ksam:itemKeyword" with
      | some (Json.arr l) => if l.isEmpty then none else some (json_dumps (Json.arr l))
      | some j => if jTruthy j then some (json_dumps (Json.arr [j])) else none
      | none => none
    let itemTitle :=
      match jget main "ksam:itemTitle" with
      | some Json.null => none
      | some j => some (pyStr j)
      | none => none
    { itemKeyword := itemKeyword,
      itemTitle := itemTitle,
      description := some (extract_enhanced_description api_response) }

/-- One row of the `fornlamningar` table (the columns the enrichment flow
reads or writes). -/
structure SiteRow where
  inspireid : String
  uuid : String
  itemKeyword : Option String
  itemTitle : Option String
  description : Option String
deriving DecidableEq, Repr

/-- `update_site_enrichment`: the `UPDATE` statement always sets all three
enrichment columns of the row keyed by `inspireid`. -/
def update_site_enrichment (row : SiteRow) (e : EnrichmentData) : SiteRow :=
  { row with itemKeyword := e.itemKeyword, itemTitle := e.itemTitle,
             description := e.description }

/-- One iteration of `enrich_database`'s loop acting on a record's row:
`query_ksamsok_api` yields `none` on any failed fetch (after the client's
own retries); a truthy response is extracted and unconditionally written. -/
def processSite (api_response : Option Json) (row : SiteRow) : SiteRow :=
  match api_response with
  | none => row
  | some j =>
    if jTruthy j then update_site_enrichment row (extract_enrichment_data j)
    else row

/-! ## `RateLimitedAPI.get` (`src/api_utils.py`)

One HTTP attempt yields a response (whose non-2xx statuses
`raise_for_status` turns into `requests.HTTPError`), a connection error or
a timeout — all subclasses of `requests.RequestException`, hence all
retried by the `tenacity` policy
`stop_after_attempt(3), wait_exponential(multiplier=1, min=4, max=10)`.
The `@limits`/`@sleep_and_retry` rate limiter delays calls but does not
change which attempts happen, and is not modelled here. -/

inductive HttpAttempt where
  | resp (status : Nat)
  | conn_err
  | timeout_err
deriving DecidableEq, Repr

inductive ReqError where
  | http_error (status : Nat)
  | connection_error
  | timeout_error
deriving DecidableEq, Repr

/-- `session.get` + `response.raise_for_status()`. -/
def attempt_result (a : HttpAttempt) : Except ReqError Nat :=
  match a with
  | HttpAttempt.resp s =>
    if 400 ≤ s && s < 600 then Except.error (ReqError.http_error s) else Except.ok s
  | HttpAttempt.conn_err => Except.error ReqError.connection_error
  | HttpAttempt.timeout_err => Except.error ReqError.timeout_error

/-- `wait_exponential(multiplier=1, min=4, max=10)` before retry `n`. -/
def tenacity_wait (n : Nat) : Nat := min 10 (max 4 (2 ^ n))

/-- The tenacity loop: `retries` further attempts remain after the current
one; returns the outcome, the number of attempts made, and the waits
slept between attempts. -/
def retry_loop (f : Nat → HttpAttempt) : Nat → Nat → List Nat →
    Except ReqError Nat × Nat × List Nat
  | i, retries, ws =>
    match attempt_result (f i), retries with
    | Except.ok v, _ => (Except.ok v, i + 1, ws)
    | Except.error e, 0 => (Except.error e, i + 1, ws)
    | Except.error _, r + 1 =>
      retry_loop f (i + 1) r (ws ++ [tenacity_wait (i + 1)])

/-- `RateLimitedAPI.get` over a stream of attempt outcomes:
`stop_after_attempt(3)` = the first attempt plus at most two retries. -/
def rate_limited_get (f : Nat → HttpAttempt) : Except ReqError Nat × Nat × List Nat :=
  retry_loop f 0 2 []

example :
    rate_limited_get (fun _ => HttpAttempt.resp 200) = (Except.ok 200, 1, []) := by rfl
example :
    rate_limited_get (fun _ => HttpAttempt.conn_err) =
      (Except.error ReqError.connection_error, 3, [4, 4]) := by rfl

/-! ## Store statements executed by the enrichment flow -/

inductive SqlOp where
  | pragma_table_info (table : String)
  | alter_add_column (table column : String)
  | select_sites
  | update_row (inspireid : String)
deriving DecidableEq, Repr

def isSchemaChange : SqlOp → Bool
  | SqlOp.alter_add_column _ _ => true
  | _ => false

/-- `ensure_description_column` (run from `DatabaseEnricher.__init__`):
inspects the schema and adds the `description` column when missing. -/
def ensure_description_column (columns : List String) : List SqlOp :=
  SqlOp.pragma_table_info "fornlamningar" ::
    (if columns.contains "description" then []
     else [SqlOp.alter_add_column "fornlamningar" "description"])

/-- The statements of `enrich_database` proper: one `SELECT` of the batch,
then an `UPDATE` per record whose fetch produced a truthy response. -/
def enrich_loop_ops (siteResults : List (String × Bool)) : List SqlOp :=
  SqlOp.select_sites ::
    siteResults.flatMap (fun sr => if sr.2 then [SqlOp.update_row sr.1] else [])

/-- A whole enrichment run: constructing `DatabaseEnricher` (which runs
`ensure_description_column`) followed by `enrich_database`. -/
def enrichment_run_ops (columns : List String) (siteResults : List (String × Bool)) :
    List SqlOp :=
  ensure_description_column columns ++ enrich_loop_ops siteResults

/-! ## Specification-side definitions

Formalizations of the spec's wording, to be compared with the embedded
code. -/

/-- The condition formula as the spec words it: the detail score counts
DISTINCT measurement-unit tokens (capped at 5) plus matched feature-keyword
hints. -/
def spec_detail_score (desc_sv : String) : Nat :=
  min 5 ((measureMatches desc_sv).dedup).length + hintCount desc_sv

/-- `condition` as the spec words it (claim C1). -/
def condition_spec (original : String) (parsed : List (String × String)) : Nat :=
  let desc := assocGetD parsed "description_sv" ""
  if pyStrip desc == "" then 0
  else if disclaimerFound original || disclaimerFound desc then 0
  else if 4 ≤ spec_detail_score desc then 2
  else 1

/-- `visibility` as the spec words it (claim C2): a function of the
placement text alone, "not visible" patterns taking precedence. -/
def visibility_spec (placement : String) : Nat :=
  let text := strLower placement
  if reWordSearch "ej synlig" text || reWordSearch "undermark" text ||
      reWordSearch "under mark" text || reWordSearch "övertäckt" text then 0
  else if reWordSearch "synlig ovan mark" text || reWordSearch "tydligt synlig" text then 2
  else 1

def exceptIsOk (r : Except ReqError Nat) : Bool :=
  match r with
  | Except.ok _ => true
  | Except.error _ => false

/-- The canonical keys produced by the parser's line loop: the range of
`FIELD_MAP`. -/
def canonicalKeys : List String := FIELD_MAP.map Prod.snd

/-- The value the province-line post-processing leaves under `key` (one of
the four geographic subfields): the last `|`-separated part whose
case-insensitive label matches, if any (claim C7). -/
def extractSubfield (pl key : String) : Option String :=
  ((splitOnChar '|' pl).map pyStrip).foldl
    (fun acc p =>
      match splitFirstColon p with
      | some kv => if strLower (pyStrip kv.1) == key then some (pyStrip kv.2) else acc
      | none => acc)
    none

/-- A label serializing a canonical key: the first `FIELD_MAP` entry whose
canonical key matches (claim C8). -/
def labelFor (k : String) : Option String :=
  (FIELD_MAP.find? (fun kv => kv.2 == k)).map Prod.fst

/-- Serialize a `ParsedFields` map back into section-labeled text using
the recognized labels, one `label: value` line per entry (claim C8). -/
def serializeFields : List (String × String) → String
  | [] => ""
  | (k, v) :: t => (labelFor k).getD "" ++ ": " ++ v ++ "\n" ++ serializeFields t

/-- Values that survive the parser's trimming untouched: non-empty,
already stripped, single-line. -/
def goodValue (v : String) : Prop :=
  v ≠ "" ∧ pyStrip v = v ∧ v.data.contains '\n' = false ∧ v.data.contains '\x0d' = false

instance (v : String) : Decidable (goodValue v) := by
  unfold goodValue
  infer_instance

/-- A round-trippable map entry: its key has a serializing label and is
not the composite `province_line` key (whose re-parse spawns subfields),
its value is a clean single line, and — for the fields subject to URL
stripping — contains no URL match. -/
def goodEntry (kv : String × String) : Prop :=
  (labelFor kv.1).isSome = true ∧ kv.1 ≠ "province_line" ∧ goodValue kv.2 ∧
    (urlFieldKeys.contains kv.1 = false ∨ urlSub kv.2 = kv.2)

instance (kv : String × String) : Decidable (goodEntry kv) := by
  unfold goodEntry
  infer_instance

/-- `labelGood lab`: the facts about a recognized section label that the
round-trip argument uses (non-empty, trimmed, colon-free, single-line). -/
def labelGood (lab : String) : Bool :=
  !(lab == "") && !(lab.data.contains ':') && !(lab.data.contains '\n') &&
    !(lab.data.contains '\x0d') && (pyStrip lab == lab)

/-! ## Association-list lemmas -/

theorem assocLookup_mem {l : List (String × String)} {k v : String} :
    assocLookup l k = some v → (k, v) ∈ l := by
  induction l with
  | nil => intro h; simp [assocLookup] at h
  | cons hd t ih =>
    intro h
    obtain ⟨k', v'⟩ := hd
    simp only [assocLookup] at h
    split at h
    · rename_i hk
      injection h with hv
      have hk' : k' = k := by simpa using hk
      subst hk'
      subst hv
      exact List.mem_cons_self _ _
    · exact List.mem_cons_of_mem _ (ih h)

theorem lookup_set_cases (r : List (String × String)) (kset key v : String) :
    assocLookup (assocSet r kset v) key =
      if kset == key then some v else assocLookup r key := by
  induction r with
  | nil => simp [assocSet, assocLookup]
  | cons hd t ih =>
    obtain ⟨k', v'⟩ := hd
    simp only [assocSet]
    by_cases h1 : (k' == kset) = true
    · rw [if_pos h1]
      have hk : k' = kset := by simpa using h1
      subst hk
      simp only [assocLookup]
      by_cases h2 : (k' == key) = true <;> simp [h2]
    · rw [if_neg h1]
      simp only [assocLookup]
      by_cases h2 : (k' == key) = true
      · have hk : k' = key := by simpa using h2
        have h3 : (kset == key) = false := by
          rw [beq_eq_false_iff_ne]
          intro he
          exact h1 (by simp [hk ▸ he])
        simp [h2, h3]
      · simp only [h2, if_false]
        exact ih

theorem mem_assocSet {r : List (String × String)} {k v : String} :
    ∀ kv ∈ assocSet r k v, kv = (k, v) ∨ kv ∈ r := by
  induction r with
  | nil => intro kv hkv; simp [assocSet] at hkv; exact Or.inl hkv
  | cons hd t ih =>
    intro kv hkv
    obtain ⟨k', v'⟩ := hd
    simp only [assocSet] at hkv
    split at hkv
    · rcases List.mem_cons.mp hkv with h | h
      · exact Or.inl h
      · exact Or.inr (List.mem_cons_of_mem _ h)
    · rcases List.mem_cons.mp hkv with h | h
      · exact Or.inr (h ▸ List.mem_cons_self _ _)
      · rcases ih kv h with h' | h'
        · exact Or.inl h'
        · exact Or.inr (List.mem_cons_of_mem _ h')

theorem assocSet_lookup_self {r : List (String × String)} {u v : String}
    (h : assocLookup r u = some v) : assocSet r u v = r := by
  induction r with
  | nil => simp [assocLookup] at h
  | cons hd t ih =>
    obtain ⟨k', v'⟩ := hd
    simp only [assocLookup] at h
    simp only [assocSet]
    split at h
    · rename_i hk
      injection h with hv
      have hk' : k' = u := by simpa using hk
      rw [if_pos hk]
      rw [hk', hv]
    · rename_i hk
      rw [if_neg hk]
      rw [ih h]

theorem assocLookup_eq_none_of_not_mem {l : List (String × String)} {k : String}
    (h : k ∉ l.map Prod.fst) : assocLookup l k = none := by
  induction l with
  | nil => rfl
  | cons hd t ih =>
    obtain ⟨k', v'⟩ := hd
    simp only [List.map_cons, List.mem_cons, not_or] at h
    simp only [assocLookup]
    rw [if_neg]
    · exact ih h.2
    · intro hb
      exact h.1 (by simpa using hb : k' = k).symm

theorem assocLookup_of_mem_nodup {l : List (String × String)} {k v : String}
    (h : (k, v) ∈ l) (hnd : (l.map Prod.fst).Nodup) : assocLookup l k = some v := by
  induction l with
  | nil => simp at h
  | cons hd t ih =>
    obtain ⟨k', v'⟩ := hd
    simp only [List.map_cons, List.nodup_cons] at hnd
    rcases List.mem_cons.mp h with h1 | h1
    · injection h1 with e1 e2
      simp only [assocLookup]
      rw [if_pos (by simp [e1])]
      rw [e2]
    · simp only [assocLookup]
      rw [if_neg, ih h1 hnd.2]
      intro hb
      have : k' = k := by simpa using hb
      subst this
      exact hnd.1 (List.mem_map_of_mem Prod.fst h1)

/-! ## Parser key-range invariant -/

theorem fieldMapLookup_mem {f k : String} (h : fieldMapLookup f = some k) :
    k ∈ canonicalKeys :=
  List.mem_map_of_mem Prod.snd (assocLookup_mem h)

theorem flushState_keys {st : PState}
    (h1 : ∀ kv ∈ st.result, kv.1 ∈ canonicalKeys)
    (h2 : ∀ k, st.currentKey = some k → k ∈ canonicalKeys) :
    ∀ kv ∈ (flushState st).result, kv.1 ∈ canonicalKeys := by
  unfold flushState
  cases hc : st.currentKey with
  | none => exact h1
  | some k =>
    dsimp only
    split
    · exact h1
    · split
      · split
        · intro kv hkv
          rcases mem_assocSet kv hkv with h | h
          · rw [h]; exact h2 k hc
          · exact h1 kv h
        · intro kv hkv
          rcases mem_assocSet kv hkv with h | h
          · rw [h]; exact h2 k hc
          · exact h1 kv h
      · intro kv hkv
        rcases List.mem_append.mp hkv with h | h
        · exact h1 kv h
        · rw [List.mem_singleton.mp h]
          exact h2 k hc

theorem appendBufLine_spec (st : PState) (line : String) :
    (appendBufLine st line).result = st.result ∧
      (appendBufLine st line).currentKey = st.currentKey := by
  unfold appendBufLine
  split
  · exact ⟨rfl, rfl⟩
  · rename_i k heq
    exact ⟨rfl, heq.symm⟩

theorem stepLine_keys (st : PState) (raw : String)
    (h1 : ∀ kv ∈ st.result, kv.1 ∈ canonicalKeys)
    (h2 : ∀ k, st.currentKey = some k → k ∈ canonicalKeys) :
    (∀ kv ∈ (stepLine st raw).result, kv.1 ∈ canonicalKeys) ∧
      ∀ k, (stepLine st raw).currentKey = some k → k ∈ canonicalKeys := by
  unfold stepLine
  dsimp only
  split
  · split
    · rename_i k heq
      refine ⟨h1, ?_⟩
      intro k' hk'
      injection hk' with e
      exact e ▸ h2 k heq
    · exact ⟨h1, h2⟩
  · split
    · split
      · rename_i key heq
        refine ⟨flushState_keys h1 h2, ?_⟩
        intro k' hk'
        injection hk' with e
        exact e ▸ fieldMapLookup_mem heq
      · have hs := appendBufLine_spec st (pyStrip raw)
        constructor
        · rw [hs.1]; exact h1
        · intro k hk
          rw [hs.2] at hk
          exact h2 k hk
    · have hs := appendBufLine_spec st (pyStrip raw)
      constructor
      · rw [hs.1]; exact h1
      · intro k hk
        rw [hs.2] at hk
        exact h2 k hk

theorem foldl_stepLine_keys (lines : List String) (st : PState)
    (h1 : ∀ kv ∈ st.result, kv.1 ∈ canonicalKeys)
    (h2 : ∀ k, st.currentKey = some k → k ∈ canonicalKeys) :
    (∀ kv ∈ (lines.foldl stepLine st).result, kv.1 ∈ canonicalKeys) ∧
      ∀ k, (lines.foldl stepLine st).currentKey = some k → k ∈ canonicalKeys := by
  induction lines generalizing st with
  | nil => exact ⟨h1, h2⟩
  | cons l t ih =>
    simp only [List.foldl_cons]
    have hs := stepLine_keys st l h1 h2
    exact ih _ hs.1 hs.2

theorem rawParse_keys (t : String) : ∀ kv ∈ rawParse t, kv.1 ∈ canonicalKeys := by
  unfold rawParse
  dsimp only
  have hf := foldl_stepLine_keys ((pySplitlines t).map pyRstrip) ⟨[], none, []⟩
    (by intro kv hkv; simp at hkv) (by intro k hk; simp at hk)
  exact flushState_keys hf.1 hf.2

theorem rawParse_lookup_none (t key : String) (h : key ∉ canonicalKeys) :
    assocLookup (rawParse t) key = none := by
  cases hl : assocLookup (rawParse t) key with
  | none => rfl
  | some v => exact absurd (rawParse_keys t _ (assocLookup_mem hl)) h

/-! ## Province-line post-processing lemmas -/

theorem lookup_provincePartStep (r : List (String × String)) (p key : String)
    (hkey : key = "province" ∨ key = "county" ∨ key = "municipality" ∨ key = "parish") :
    assocLookup (provincePartStep r p) key =
      (match splitFirstColon p with
       | some kv =>
         if strLower (pyStrip kv.1) == key then some (pyStrip kv.2) else assocLookup r key
       | none => assocLookup r key) := by
  unfold provincePartStep
  cases hsp : splitFirstColon p with
  | none => rfl
  | some kv =>
    dsimp only
    by_cases h1 : (strLower (pyStrip kv.1) == "province") = true
    · rw [if_pos h1, lookup_set_cases]
      have e : strLower (pyStrip kv.1) = "province" := by simpa using h1
      rw [e]
    · rw [if_neg h1]
      by_cases h2 : (strLower (pyStrip kv.1) == "county") = true
      · rw [if_pos h2, lookup_set_cases]
        have e : strLower (pyStrip kv.1) = "county" := by simpa using h2
        rw [e]
      · rw [if_neg h2]
        by_cases h3 : (strLower (pyStrip kv.1) == "municipality") = true
        · rw [if_pos h3, lookup_set_cases]
          have e : strLower (pyStrip kv.1) = "municipality" := by simpa using h3
          rw [e]
        · rw [if_neg h3]
          by_cases h4 : (strLower (pyStrip kv.1) == "parish") = true
          · rw [if_pos h4, lookup_set_cases]
            have e : strLower (pyStrip kv.1) = "parish" := by simpa using h4
            rw [e]
          · rw [if_neg h4]
            rcases hkey with rfl | rfl | rfl | rfl
            · exact (if_neg h1).symm
            · exact (if_neg h2).symm
            · exact (if_neg h3).symm
            · exact (if_neg h4).symm

theorem lookup_partsFold (parts : List String) (r : List (String × String)) (key : String)
    (hkey : key = "province" ∨ key = "county" ∨ key = "municipality" ∨ key = "parish") :
    assocLookup (parts.foldl provincePartStep r) key =
      parts.foldl
        (fun acc p =>
          match splitFirstColon p with
          | some kv =>
            if strLower (pyStrip kv.1) == key then some (pyStrip kv.2) else acc
          | none => acc)
        (assocLookup r key) := by
  induction parts generalizing r with
  | nil => rfl
  | cons p t ih =>
    simp only [List.foldl_cons]
    rw [ih, lookup_provincePartStep r p key hkey]

theorem lookup_partsFold_line (parts : List String) (r : List (String × String)) :
    assocLookup (parts.foldl provincePartStep r) "province_line" =
      assocLookup r "province_line" := by
  induction parts generalizing r with
  | nil => rfl
  | cons p t ih =>
    simp only [List.foldl_cons]
    rw [ih]
    unfold provincePartStep
    cases hsp : splitFirstColon p with
    | none => rfl
    | some kv =>
      dsimp only
      split_ifs
      · rw [lookup_set_cases, if_neg (by decide)]
      · rw [lookup_set_cases, if_neg (by decide)]
      · rw [lookup_set_cases, if_neg (by decide)]
      · rw [lookup_set_cases, if_neg (by decide)]
      · rfl

/-! ## URL post-processing lemmas -/

theorem lookup_urlFieldStep_ne (r : List (String × String)) (u key : String)
    (h : (u == key) = false) :
    assocLookup (urlFieldStep r u) key = assocLookup r key := by
  unfold urlFieldStep
  cases hl : assocLookup r u with
  | none => rfl
  | some v =>
    dsimp only
    rw [lookup_set_cases, h]
    rfl

theorem lookup_urlFold (ks : List String) (r : List (String × String)) (key : String)
    (h : (ks.all fun u => !(u == key)) = true) :
    assocLookup (ks.foldl urlFieldStep r) key = assocLookup r key := by
  induction ks generalizing r with
  | nil => rfl
  | cons u t ih =>
    simp only [List.all_cons, Bool.and_eq_true] at h
    simp only [List.foldl_cons]
    rw [ih _ h.2, lookup_urlFieldStep_ne]
    simpa using h.1

/-! ## Trimming fixpoint lemmas (for the round-trip claim) -/

theorem length_dropWhile_le {α : Type} (p : α → Bool) (l : List α) :
    (l.dropWhile p).length ≤ l.length := by
  induction l with
  | nil => simp
  | cons a t ih =>
    rw [List.dropWhile_cons]
    split
    · exact Nat.le_trans ih (Nat.le_succ _)
    · exact Nat.le_refl _

theorem dropWhile_length_inv {α : Type} (p : α → Bool) (l : List α)
    (h : (l.dropWhile p).length = l.length) : l.dropWhile p = l := by
  cases l with
  | nil => rfl
  | cons a t =>
    by_cases hp : p a = true
    · exfalso
      rw [List.dropWhile_cons, if_pos hp] at h
      have := length_dropWhile_le p t
      simp at h
      omega
    · rw [List.dropWhile_cons, if_neg hp]

theorem pyStripChars_fix {l : List Char} (h : pyStripChars l = l) :
    l.dropWhile pyIsSpace = l ∧ l.reverse.dropWhile pyIsSpace = l.reverse := by
  have hlen := congrArg List.length h
  unfold pyStripChars at h hlen
  have l1 : ((l.dropWhile pyIsSpace).reverse.dropWhile pyIsSpace).length ≤
      (l.dropWhile pyIsSpace).length := by
    have := length_dropWhile_le pyIsSpace (l.dropWhile pyIsSpace).reverse
    simpa using this
  have l2 : (l.dropWhile pyIsSpace).length ≤ l.length := length_dropWhile_le _ _
  have l3 : ((l.dropWhile pyIsSpace).reverse.dropWhile pyIsSpace).length = l.length := by
    simpa using hlen
  have e1 : l.dropWhile pyIsSpace = l := dropWhile_length_inv _ _ (by omega)
  rw [e1] at h
  refine ⟨e1, ?_⟩
  have h2 := congrArg List.reverse h
  simpa using h2

theorem head_not_space {c : Char} {t : List Char}
    (h : (c :: t).dropWhile pyIsSpace = c :: t) : pyIsSpace c = false := by
  by_cases hc : pyIsSpace c = true
  · exfalso
    rw [List.dropWhile_cons, if_pos hc] at h
    have hl := length_dropWhile_le pyIsSpace t
    have := congrArg List.length h
    simp at this
    omega
  · simpa using hc

theorem dropWhile_false_head {p : Char → Bool} {c : Char} {t : List Char} (h : p c = false) :
    (c :: t).dropWhile p = c :: t := by
  rw [List.dropWhile_cons]
  simp [h]

theorem goodValue_parts {v : String} (h : goodValue v) :
    v.data ≠ [] ∧ v.data.dropWhile pyIsSpace = v.data ∧
      v.data.reverse.dropWhile pyIsSpace = v.data.reverse := by
  obtain ⟨hne, hstrip, _, _⟩ := h
  have hd : pyStripChars v.data = v.data := congrArg String.data hstrip
  have hfix := pyStripChars_fix hd
  refine ⟨?_, hfix.1, hfix.2⟩
  intro h0
  exact hne (String.ext h0)

/-! ## Serialized-line lemmas -/

theorem line_data (lab v : String) :
    (lab ++ ": " ++ v).data = lab.data ++ ':' :: ' ' :: v.data := by
  simp [String.data_append]

theorem line_rstripChars (labD vD : List Char)
    (hvfix : vD.reverse.dropWhile pyIsSpace = vD.reverse) (hne : vD ≠ []) :
    pyRstripChars (labD ++ ':' :: ' ' :: vD) = labD ++ ':' :: ' ' :: vD := by
  obtain ⟨c, t, hct⟩ : ∃ c t, vD.reverse = c :: t := by
    cases hr : vD.reverse with
    | nil => exact absurd (by simpa using hr) hne
    | cons c t => exact ⟨c, t, rfl⟩
  have hc : pyIsSpace c = false := head_not_space (hct ▸ hvfix)
  have hrev : (labD ++ ':' :: ' ' :: vD).reverse = c :: (t ++ (' ' :: ':' :: labD.reverse)) := by
    rw [List.reverse_append]
    simp [hct]
  unfold pyRstripChars
  rw [hrev, dropWhile_false_head hc, ← hrev, List.reverse_reverse]

theorem line_stripChars (labD vD : List Char) (c0 : Char) (t0 : List Char)
    (hlabD : labD = c0 :: t0) (hc0 : pyIsSpace c0 = false)
    (hvfix : vD.reverse.dropWhile pyIsSpace = vD.reverse) (hne : vD ≠ []) :
    pyStripChars (labD ++ ':' :: ' ' :: vD) = labD ++ ':' :: ' ' :: vD := by
  have e : (labD ++ ':' :: ' ' :: vD).dropWhile pyIsSpace = labD ++ ':' :: ' ' :: vD := by
    subst hlabD
    rw [List.cons_append, dropWhile_false_head hc0]
  show pyRstripChars ((labD ++ ':' :: ' ' :: vD).dropWhile pyIsSpace) =
    labD ++ ':' :: ' ' :: vD
  rw [e]
  exact line_rstripChars labD vD hvfix hne

theorem contains_append_colon (a b : List Char) : (a ++ ':' :: b).contains ':' = true := by
  simp

theorem not_beq_colon_of_contains_false {l : List Char} (h : l.contains ':' = false) :
    ∀ a ∈ l, (!(a == ':')) = true := by
  intro a ha
  have hnm : (':' : Char) ∉ l := by simpa using h
  simp only [Bool.not_eq_true', beq_eq_false_iff_ne]
  intro he
  exact hnm (he ▸ ha)

theorem splitFirstColon_line (lab v : String) (hnc : lab.data.contains ':' = false) :
    splitFirstColon (lab ++ ": " ++ v) = some (lab, String.mk (' ' :: v.data)) := by
  unfold splitFirstColon
  rw [line_data, if_pos (contains_append_colon lab.data (' ' :: v.data))]
  have ht : (lab.data ++ ':' :: ' ' :: v.data).takeWhile (fun c => !(c == ':')) = lab.data := by
    rw [List.takeWhile_append_of_pos (not_beq_colon_of_contains_false hnc)]
    simp [List.takeWhile_cons]
  have hd : (lab.data ++ ':' :: ' ' :: v.data).dropWhile (fun c => !(c == ':')) =
      ':' :: ' ' :: v.data := by
    rw [List.dropWhile_append_of_pos (not_beq_colon_of_contains_false hnc)]
    simp [List.dropWhile_cons]
  rw [ht, hd]
  rfl

/-! ## Label facts and the serialized-line step lemma -/

theorem all_labels_good : (FIELD_MAP.all fun kv => labelGood kv.1) = true := by decide

theorem labels_nodup : (FIELD_MAP.map Prod.fst).Nodup := by decide

theorem labelFor_mem {k lab : String} (h : labelFor k = some lab) : (lab, k) ∈ FIELD_MAP := by
  unfold labelFor at h
  cases hf : FIELD_MAP.find? (fun kv => kv.2 == k) with
  | none => rw [hf] at h; simp at h
  | some pair =>
    rw [hf] at h
    obtain ⟨a, b⟩ := pair
    have hmem := List.mem_of_find?_eq_some hf
    have hp := List.find?_some hf
    have ha : a = lab := by simpa using h
    have hb : b = k := by simpa using hp
    rw [← ha, ← hb]
    exact hmem

theorem labelGood_parts {lab : String} (h : labelGood lab = true) :
    lab.data ≠ [] ∧ lab.data.contains ':' = false ∧ pyStrip lab = lab := by
  unfold labelGood at h
  simp only [Bool.and_eq_true, Bool.not_eq_true'] at h
  obtain ⟨⟨⟨⟨h1, h2⟩, h3⟩, h4⟩, h5⟩ := h
  refine ⟨?_, h2, by simpa using h5⟩
  intro h0
  rw [show lab = "" from String.ext h0] at h1
  exact absurd h1 (by decide)

theorem label_head {lab : String} (h : labelGood lab = true) :
    ∃ c0 t0, lab.data = c0 :: t0 ∧ pyIsSpace c0 = false := by
  obtain ⟨hne, _, hstrip⟩ := labelGood_parts h
  have hfix := pyStripChars_fix (congrArg String.data hstrip)
  cases hd : lab.data with
  | nil => exact absurd hd hne
  | cons c0 t0 => exact ⟨c0, t0, rfl, head_not_space (hd ▸ hfix.1)⟩

theorem serialized_line_strip (lab v : String) (hlab : labelGood lab = true)
    (hgv : goodValue v) : pyStrip (lab ++ ": " ++ v) = lab ++ ": " ++ v := by
  obtain ⟨c0, t0, hd, hc0⟩ := label_head hlab
  obtain ⟨hvne, _, hvfix2⟩ := goodValue_parts hgv
  apply String.ext
  show pyStripChars (lab ++ ": " ++ v).data = (lab ++ ": " ++ v).data
  rw [line_data]
  exact line_stripChars _ _ c0 t0 hd hc0 hvfix2 hvne

theorem serialized_line_rstrip (lab v : String) (hgv : goodValue v) :
    pyRstrip (lab ++ ": " ++ v) = lab ++ ": " ++ v := by
  obtain ⟨hvne, _, hvfix2⟩ := goodValue_parts hgv
  apply String.ext
  show pyRstripChars (lab ++ ": " ++ v).data = (lab ++ ": " ++ v).data
  rw [line_data]
  exact line_rstripChars _ _ hvfix2 hvne

theorem serialized_line_ne_empty (lab v : String) (hlab : labelGood lab = true) :
    lab ++ ": " ++ v ≠ "" := by
  obtain ⟨c0, t0, hd, _⟩ := label_head hlab
  intro h
  have hdata := congrArg String.data h
  rw [line_data, hd] at hdata
  simp at hdata

theorem lstrip_space_value {v : String} (hgv : goodValue v) :
    pyLstrip (String.mk (' ' :: v.data)) = v := by
  obtain ⟨_, hfix1, _⟩ := goodValue_parts hgv
  apply String.ext
  show (' ' :: v.data).dropWhile pyIsSpace = v.data
  rw [List.dropWhile_cons, if_pos (show pyIsSpace ' ' = true from rfl)]
  exact hfix1

theorem fieldMapLookup_label {lab k : String} (hmem : (lab, k) ∈ FIELD_MAP) :
    fieldMapLookup lab = some k :=
  assocLookup_of_mem_nodup hmem labels_nodup

theorem stepLine_serialized (st : PState) (lab k v : String)
    (hmem : (lab, k) ∈ FIELD_MAP) (hgv : goodValue v) :
    stepLine st (lab ++ ": " ++ v) =
      { result := (flushState st).result, currentKey := some k, buf := [v] } := by
  have hlab : labelGood lab = true := by
    simpa using List.all_eq_true.mp all_labels_good (lab, k) hmem
  unfold stepLine
  dsimp only
  rw [serialized_line_strip lab v hlab hgv]
  rw [if_neg (by simpa using serialized_line_ne_empty lab v hlab)]
  rw [splitFirstColon_line lab v (labelGood_parts hlab).2.1]
  dsimp only
  rw [(labelGood_parts hlab).2.2, fieldMapLookup_label hmem]
  dsimp only
  rw [lstrip_space_value hgv]

/-! ## Round-trip loop lemmas -/

theorem splitLinesChars_line (line : List Char) (acc rest : List Char)
    (h : line.contains '\n' = false) :
    splitLinesChars (line ++ '\n' :: rest) acc =
      String.mk (acc.reverse ++ line) :: splitLinesChars rest [] := by
  induction line generalizing acc with
  | nil => simp [splitLinesChars]
  | cons c cs ih =>
    have hnm : '\n' ∉ (c :: cs) := by simpa using h
    have hc : (c == '\n') = false := by
      rw [beq_eq_false_iff_ne]
      intro he
      exact hnm (he ▸ List.mem_cons_self _ _)
    have hcs : cs.contains '\n' = false := by
      have : '\n' ∉ cs := fun hmm2 => hnm (List.mem_cons_of_mem c hmm2)
      simpa using this
    rw [List.cons_append]
    show splitLinesChars (c :: (cs ++ '\n' :: rest)) acc = _
    rw [splitLinesChars, if_neg (by simp [hc])]
    rw [ih (c :: acc) hcs]
    simp [List.reverse_cons, List.append_assoc]

theorem pySplitlines_serialize (m : List (String × String))
    (hm : ∀ kv ∈ m, goodEntry kv) :
    pySplitlines (serializeFields m) =
      m.map fun kv => (labelFor kv.1).getD "" ++ ": " ++ kv.2 := by
  induction m with
  | nil => rfl
  | cons kv t ih =>
    obtain ⟨k, v⟩ := kv
    have hkv := hm (k, v) (List.mem_cons_self _ _)
    obtain ⟨lab, hlab⟩ := Option.isSome_iff_exists.mp hkv.1
    have hmem := labelFor_mem hlab
    have hlabg : labelGood lab = true := by
      simpa using List.all_eq_true.mp all_labels_good (lab, k) hmem
    have hgv : goodValue v := hkv.2.2.1
    have hline_nl : (lab.data ++ ':' :: ' ' :: v.data).contains '\n' = false := by
      have h1 : '\n' ∉ lab.data := by
        have := labelGood_parts hlabg
        unfold labelGood at hlabg
        simp only [Bool.and_eq_true, Bool.not_eq_true'] at hlabg
        simpa using hlabg.1.1.2
      have h2 : '\n' ∉ v.data := by simpa using hgv.2.2.1
      simp [h1, h2]
    unfold serializeFields pySplitlines
    rw [hlab, Option.getD_some]
    have hdata : (lab ++ ": " ++ v ++ "\n" ++ serializeFields t).data =
        (lab.data ++ ':' :: ' ' :: v.data) ++ '\n' :: (serializeFields t).data := by
      simp [String.data_append]
    rw [hdata, splitLinesChars_line _ _ _ hline_nl]
    rw [show splitLinesChars (serializeFields t).data [] = pySplitlines (serializeFields t)
      from rfl]
    rw [ih fun kv hkv2 => hm kv (List.mem_cons_of_mem _ hkv2)]
    simp only [List.map_cons, hlab]
    congr 1
    · apply String.ext
      simp [line_data]

theorem map_pyRstrip_id (m : List (String × String)) (hm : ∀ kv ∈ m, goodEntry kv) :
    (m.map fun kv => (labelFor kv.1).getD "" ++ ": " ++ kv.2).map pyRstrip =
      m.map fun kv => (labelFor kv.1).getD "" ++ ": " ++ kv.2 := by
  rw [List.map_map]
  apply List.map_congr_left
  intro kv hkv
  exact serialized_line_rstrip _ _ (hm kv hkv).2.2.1

theorem flushState_open (res : List (String × String)) (k v : String)
    (hfresh : assocLookup res k = none) (hvne : v ≠ "") (hstrip : pyStrip v = v) :
    flushState ⟨res, some k, [v]⟩ = ⟨res ++ [(k, v)], none, []⟩ := by
  unfold flushState
  dsimp only
  rw [show joinNL [v] = v from rfl, hstrip]
  rw [if_neg (by simpa using hvne)]
  rw [hfresh]

theorem fresh_of_nodup_middle {resK tK : List String} {k : String}
    (hnd : (resK ++ k :: tK).Nodup) : k ∉ resK := by
  rcases List.nodup_append.mp hnd with ⟨_, _, hdisj⟩
  intro hk
  exact hdisj hk (List.mem_cons_self _ _)

theorem parse_loop_serialized (m : List (String × String)) (res : List (String × String))
    (k v : String)
    (hnd : (res.map Prod.fst ++ k :: m.map Prod.fst).Nodup)
    (hkv : goodEntry (k, v))
    (hm : ∀ kv ∈ m, goodEntry kv) :
    (flushState ((m.map fun kv => (labelFor kv.1).getD "" ++ ": " ++ kv.2).foldl stepLine
        ⟨res, some k, [v]⟩)).result = res ++ (k, v) :: m := by
  induction m generalizing res k v with
  | nil =>
    have hfresh : assocLookup res k = none :=
      assocLookup_eq_none_of_not_mem (fresh_of_nodup_middle hnd)
    rw [List.map_nil, List.foldl_nil,
      flushState_open res k v hfresh hkv.2.2.1.1 hkv.2.2.1.2.1]
  | cons kv2 t ih =>
    obtain ⟨k2, v2⟩ := kv2
    have hfresh : assocLookup res k = none :=
      assocLookup_eq_none_of_not_mem (fresh_of_nodup_middle hnd)
    have hkv2 : goodEntry (k2, v2) := hm (k2, v2) (List.mem_cons_self _ _)
    obtain ⟨lab2, hlab2⟩ := Option.isSome_iff_exists.mp hkv2.1
    simp only [List.map_cons, List.foldl_cons]
    have hlab2b : labelFor k2 = some lab2 := hlab2
    rw [hlab2b, Option.getD_some]
    rw [stepLine_serialized _ lab2 k2 v2 (labelFor_mem hlab2) hkv2.2.2.1]
    rw [flushState_open res k v hfresh hkv.2.2.1.1 hkv.2.2.1.2.1]
    dsimp only
    have hnd2 : ((res ++ [(k, v)]).map Prod.fst ++ k2 :: t.map Prod.fst).Nodup := by
      rw [List.map_append, List.append_assoc]
      simpa using hnd
    have := ih (res ++ [(k, v)]) k2 v2 hnd2 hkv2
      fun kv hkv3 => hm kv (List.mem_cons_of_mem _ hkv3)
    rw [this]
    simp [List.append_assoc]

theorem lookup_none_of_all_ne (m : List (String × String)) (key : String)
    (h : ∀ kv ∈ m, kv.1 ≠ key) : assocLookup m key = none := by
  cases hl : assocLookup m key with
  | none => rfl
  | some v => exact absurd rfl (h _ (assocLookup_mem hl))

theorem urlFieldStep_id (r : List (String × String)) (u : String)
    (h : ∀ v, assocLookup r u = some v → pyStrip (urlSub v) = v) :
    urlFieldStep r u = r := by
  unfold urlFieldStep
  cases hl : assocLookup r u with
  | none => rfl
  | some v =>
    dsimp only
    rw [h v hl]
    exact assocSet_lookup_self hl

theorem postUrls_id (r : List (String × String))
    (h : ∀ kv ∈ r, urlFieldKeys.contains kv.1 = true → pyStrip (urlSub kv.2) = kv.2) :
    postUrls r = r := by
  unfold postUrls
  have hstep : ∀ u ∈ urlFieldKeys, urlFieldStep r u = r := by
    intro u hu
    apply urlFieldStep_id
    intro v hl
    exact h (u, v) (assocLookup_mem hl) (by simpa using hu)
  have aux : ∀ ks : List String, (∀ u ∈ ks, urlFieldStep r u = r) →
      ks.foldl urlFieldStep r = r := by
    intro ks
    induction ks with
    | nil => intro; rfl
    | cons u t ih =>
      intro hh
      rw [List.foldl_cons, hh u (List.mem_cons_self _ _)]
      exact ih fun u2 hu2 => hh u2 (List.mem_cons_of_mem _ hu2)
  exact aux urlFieldKeys hstep

/-! ## Claims -/

/-- **C1** (corrected).  `compute_condition` follows the claimed structure
(empty description → 0; disclaimer in raw text or parsed description → 0;
detail score ≥ 4 → 2; otherwise 1), except that the measurement part of
the detail score counts all non-overlapping measurement-token occurrences
(capped at 5), not distinct tokens. -/
theorem c1_condition_amended (original : String) (parsed : List (String × String)) :
    compute_condition original parsed =
      (let desc := assocGetD parsed "description_sv" ""
       if pyStrip desc == "" then 0
       else if disclaimerFound original || disclaimerFound desc then 0
       else if 4 ≤ min 5 (measureMatches desc).length + hintCount desc then 2
       else 1) := by
  simp only [compute_condition, disclaimers_present, detail_score]
  by_cases hps : pyStrip (assocGetD parsed "description_sv" "") = ""
  · simp [hps]
  · have hne : ¬(assocGetD parsed "description_sv" "" = "") := by
      intro h
      rw [h] at hps
      exact hps rfl
    simp only [beq_iff_eq, hps, if_false, hne, ite_self]

/-- **C1** counterexample: with four occurrences of the same token "1 m"
the code's condition is 2 while the spec's distinct-token reading gives 1,
so the claim as stated is false. -/
theorem c1_counterexample :
    compute_condition "" [("description_sv", "1 m 1 m 1 m 1 m")] = 2 ∧
      condition_spec "" [("description_sv", "1 m 1 m 1 m 1 m")] = 1 := by
  constructor
  · decide
  · decide

/-- **C2** (confirmed).  `compute_visibility` depends only on the
placement text and equals the spec's precedence structure: 0 on any
"not visible" pattern match (overriding "visible"), else 2 on any
"visible" pattern match, else 1; its value is always in {0,1,2}. -/
theorem c2_visibility (parsed : List (String × String)) :
    compute_visibility parsed = visibility_spec (assocGetD parsed "placement" "") ∧
      (compute_visibility parsed = 0 ∨ compute_visibility parsed = 1 ∨
        compute_visibility parsed = 2) := by
  constructor
  · simp only [compute_visibility, visibility_spec, VIS_NOT_VISIBLE_PATTERNS,
      VIS_VISIBLE_PATTERNS, List.any_cons, List.any_nil, Bool.or_false, Bool.or_assoc]
  · unfold compute_visibility
    dsimp only
    split
    · exact Or.inl rfl
    · split
      · exact Or.inr (Or.inr rfl)
      · exact Or.inr (Or.inl rfl)

/-- **C3** counterexample: a document with `@graph: []` makes the resolver
return the `MainEntityNotFound` sentinel ("Main entity not found"), not
the `NoGraph` sentinel ("No data available") the claim requires. -/
theorem c3_counterexample :
    extract_enhanced_description (Json.obj [("@graph", Json.arr [])]) =
        "Main entity not found" ∧
      ("Main entity not found" : String) ≠ "No data available" := by
  exact ⟨rfl, by decide⟩

/-- **C3** (corrected).  The `NoGraph` sentinel is returned exactly for
falsy documents or documents lacking the `@graph` key; any document with a
`@graph` array none of whose entities carries a string `@id` with the
primary-resource prefix — including the empty array — yields the
`MainEntityNotFound` sentinel. -/
theorem c3_graph_resolver_amended (fields : List (String × Json)) (g : List Json)
    (hkey : jLookup fields "@graph" = none)
    (hmain : g.find? entMatchesResolver = none) :
    extract_enhanced_description (Json.obj fields) = "No data available" ∧
      extract_enhanced_description (Json.obj (("@graph", Json.arr g) :: fields)) =
        "Main entity not found" := by
  constructor
  · unfold extract_enhanced_description
    have h1 : jHasKey (Json.obj fields) "@graph" = false := by
      simp [jHasKey, jget, hkey]
    simp [h1]
  · unfold extract_enhanced_description
    have h2 : jget (Json.obj (("@graph", Json.arr g) :: fields)) "@graph" =
        some (Json.arr g) := by
      simp [jget, jLookup]
    simp [jTruthy, jHasKey, h2, hmain]

theorem c3_graph_resolver_amended_witness :
    (jLookup ([] : List (String × Json)) "@graph" = none ∧
        ([] : List Json).find? entMatchesResolver = none) ∧
      extract_enhanced_description (Json.obj []) = "No data available" ∧
        extract_enhanced_description (Json.obj [("@graph", Json.arr [])]) =
          "Main entity not found" :=
  ⟨⟨rfl, rfl⟩, c3_graph_resolver_amended [] [] rfl rfl⟩

/-- **C4** counterexample: a 404 response is raised as
`requests.HTTPError`, a `RequestException`, so the retry policy retries
it like a transient failure: after a first-attempt 404 a second attempt
runs (and can succeed), and an all-404 stream is attempted three times —
the 404 is not a non-retried `PermanentNotFound` outcome. -/
theorem c4_counterexample :
    rate_limited_get (fun i => if i == 0 then HttpAttempt.resp 404 else HttpAttempt.resp 200) =
        (Except.ok 200, 2, [4]) ∧
      rate_limited_get (fun _ => HttpAttempt.resp 404) =
        (Except.error (ReqError.http_error 404), 3, [4, 4]) :=
  ⟨rfl, rfl⟩

/-- **C4** (corrected).  Every failed attempt — connection error, timeout,
or any raised HTTP status including 404 — is retried identically, up to
the fixed ceiling of 3 attempts with backoff waits bounded between 4 and
10 seconds; after the third failure the retry policy stops and the
failure (modelled as the last attempt's error) propagates to the caller,
which reports the record as failed. -/
theorem c4_retry_amended (f : Nat → HttpAttempt) :
    rate_limited_get f =
        (if exceptIsOk (attempt_result (f 0)) then
           (attempt_result (f 0), 1, ([] : List Nat))
         else if exceptIsOk (attempt_result (f 1)) then
           (attempt_result (f 1), 2, [tenacity_wait 1])
         else (attempt_result (f 2), 3, [tenacity_wait 1, tenacity_wait 2])) ∧
      (rate_limited_get f).2.1 ≤ 3 ∧
      ((rate_limited_get f).2.2.all fun w => decide (4 ≤ w) && decide (w ≤ 10)) = true := by
  have key : rate_limited_get f =
      (if exceptIsOk (attempt_result (f 0)) then
         (attempt_result (f 0), 1, ([] : List Nat))
       else if exceptIsOk (attempt_result (f 1)) then
         (attempt_result (f 1), 2, [tenacity_wait 1])
       else (attempt_result (f 2), 3, [tenacity_wait 1, tenacity_wait 2])) := by
    unfold rate_limited_get
    cases h0 : attempt_result (f 0) with
    | ok v => simp [retry_loop, h0, exceptIsOk]
    | error e =>
      cases h1 : attempt_result (f 1) with
      | ok v => simp [retry_loop, h0, h1, exceptIsOk]
      | error e1 =>
        cases h2 : attempt_result (f 2) with
        | ok v => simp [retry_loop, h0, h1, h2, exceptIsOk]
        | error e2 => simp [retry_loop, h0, h1, h2, exceptIsOk]
  refine ⟨key, ?_, ?_⟩ <;> rw [key] <;> split_ifs <;> simp [tenacity_wait]

/-- **C5** counterexample: the fetch succeeds but resolution fails (no
entity carries the primary-resource prefix), yet an empty enrichment is
still written, nulling the row's three enrichment columns — a persisted
empty update, with the previous contents lost. -/
theorem c5_counterexample :
    processSite
        (some (Json.obj
          [("@graph", Json.arr [Json.obj [("@id", Json.str "http://other/x")]])]))
        ⟨"site-1", "uuid-1", some "kw", some "Old title", some "Old description"⟩ =
        ⟨"site-1", "uuid-1", none, none, none⟩ ∧
      (⟨"site-1", "uuid-1", none, none, none⟩ : SiteRow) ≠
        ⟨"site-1", "uuid-1", some "kw", some "Old title", some "Old description"⟩ := by
  refine ⟨?_, by decide⟩
  set_option maxRecDepth 8000 in decide

/-- **C5** (corrected).  The record key columns are never touched, and per
record either nothing is written (fetch failed or falsy response) or the
full three-column enrichment tuple extracted from the response is written
— but the write also happens when resolution/extraction fails, persisting
an all-null enrichment over the row's previous contents. -/
theorem c5_per_record_update_amended (o : Option Json) (row : SiteRow) :
    (processSite o row).inspireid = row.inspireid ∧
      (processSite o row).uuid = row.uuid ∧
      (processSite o row = row ∨
        ∃ j, o = some j ∧ jTruthy j = true ∧
          processSite o row = update_site_enrichment row (extract_enrichment_data j)) := by
  cases o with
  | none => exact ⟨rfl, rfl, Or.inl rfl⟩
  | some j =>
    cases hj : jTruthy j with
    | true =>
      refine ⟨?_, ?_, Or.inr ⟨j, rfl, hj, ?_⟩⟩ <;>
        simp [processSite, hj, update_site_enrichment]
    | false =>
      refine ⟨?_, ?_, Or.inl ?_⟩ <;> simp [processSite, hj]

/-- **C9** counterexample: constructing the enricher over a schema without
the `description` column executes `ALTER TABLE ... ADD COLUMN` as part of
the enrichment run — a schema-changing statement inside the flow. -/
theorem c9_counterexample :
    ((enrichment_run_ops ["inspireid", "uuid", "itemKeyword", "itemTitle"]
        [("site-1", true)]).any isSchemaChange) = true ∧
      ((enrich_loop_ops [("site-1", true)]).any isSchemaChange) = false := by
  decide

/-- **C9** (corrected).  The per-record enrichment loop itself executes
only row reads and row updates — never a schema change — but the
enricher's initialization runs `ensure_description_column`, which executes
`ALTER TABLE fornlamningar ADD COLUMN description` whenever that column is
missing. -/
theorem c9_schema_ops_amended (columns : List String)
    (siteResults : List (String × Bool)) :
    ((enrich_loop_ops siteResults).all fun op => !isSchemaChange op) = true ∧
      ensure_description_column columns =
        (if columns.contains "description" then
           [SqlOp.pragma_table_info "fornlamningar"]
         else [SqlOp.pragma_table_info "fornlamningar",
               SqlOp.alter_add_column "fornlamningar" "description"]) := by
  constructor
  · rw [List.all_eq_true]
    intro op hop
    rcases List.mem_cons.mp hop with h | h
    · rw [h]; rfl
    · rcases List.mem_flatMap.mp h with ⟨sr, _, hmem⟩
      cases hb : sr.2 with
      | true =>
        rw [hb] at hmem
        simp only [if_true, List.mem_singleton] at hmem
        rw [hmem]; rfl
      | false =>
        rw [hb] at hmem
        simp at hmem
  · unfold ensure_description_column
    split <;> rfl

/-- **C6** (confirmed).  When the parsed Swedish description is empty the
pipeline forces the generated description to the literal "missing" and
both visibility and condition to 0, without invoking the summarizer —
uniformly in the class mapping and in whatever the summarizer would
return. -/
theorem c6_empty_description_forcing (raaMap : String → Option String)
    (llm : String → String) (orig : String)
    (h : assocGetD (parse_record orig) "description_sv" "" = "") :
    process_sample raaMap llm orig =
      { description := "missing", visibility := 0, condition_known := 0,
        llmCalled := false } := by
  have hb : build_description_input raaMap (parse_record orig) = "" := by
    unfold build_description_input
    rw [h]
    dsimp only
    rw [show strip_disclaimers "" = "" from rfl]
    simp
  unfold process_sample
  dsimp only
  rw [hb]
  simp [show pyStrip "" = "" from rfl]

theorem c6_empty_description_forcing_witness :
    assocGetD (parse_record "Klass: Hus") "description_sv" "" = "" ∧
      process_sample (fun _ => none) (fun _ => "an LLM sentence") "Klass: Hus" =
        { description := "missing", visibility := 0, condition_known := 0,
          llmCalled := false } :=
  ⟨by decide, c6_empty_description_forcing _ _ _ (by decide)⟩

/-- **C7** counterexample: after parsing, the composite `province_line`
key is still present in the returned mapping (the source never deletes
it), so the claim that it is absent is false. -/
theorem c7_counterexample :
    assocLookup (parse_record "County: A | Province: B") "province_line" =
        some "A | Province: B" ∧
      (some "A | Province: B" ≠ (none : Option String)) := by
  exact ⟨by decide, by decide⟩

/-- **C7** (corrected).  When the composite `province_line` section was
populated, parsing splits it on `|` and each part on its first colon to
derive the `province`, `county`, `municipality` and `parish` keys
(case-insensitive key match, later parts overriding earlier ones), but
the composite `province_line` entry itself remains in the returned
mapping with its parsed value. -/
theorem c7_province_line_amended (t pl : String)
    (h : assocLookup (rawParse t) "province_line" = some pl) :
    assocLookup (parse_record t) "province_line" = some pl ∧
      assocLookup (parse_record t) "province" = extractSubfield pl "province" ∧
      assocLookup (parse_record t) "county" = extractSubfield pl "county" ∧
      assocLookup (parse_record t) "municipality" = extractSubfield pl "municipality" ∧
      assocLookup (parse_record t) "parish" = extractSubfield pl "parish" := by
  have hpost : postProvince (rawParse t) =
      ((splitOnChar '|' pl).map pyStrip).foldl provincePartStep (rawParse t) := by
    unfold postProvince
    rw [h]
  unfold parse_record postUrls
  rw [hpost]
  refine ⟨?_, ?_, ?_, ?_, ?_⟩
  · rw [lookup_urlFold _ _ _ (by decide), lookup_partsFold_line, h]
  · rw [lookup_urlFold _ _ _ (by decide), lookup_partsFold _ _ _ (Or.inl rfl),
      rawParse_lookup_none t "province" (by decide)]
    rfl
  · rw [lookup_urlFold _ _ _ (by decide), lookup_partsFold _ _ _ (Or.inr (Or.inl rfl)),
      rawParse_lookup_none t "county" (by decide)]
    rfl
  · rw [lookup_urlFold _ _ _ (by decide),
      lookup_partsFold _ _ _ (Or.inr (Or.inr (Or.inl rfl))),
      rawParse_lookup_none t "municipality" (by decide)]
    rfl
  · rw [lookup_urlFold _ _ _ (by decide),
      lookup_partsFold _ _ _ (Or.inr (Or.inr (Or.inr rfl))),
      rawParse_lookup_none t "parish" (by decide)]
    rfl

theorem c7_province_line_amended_witness :
    assocLookup (rawParse "County: A | Province: B") "province_line" =
        some "A | Province: B" ∧
      (assocLookup (parse_record "County: A | Province: B") "province_line" =
          some "A | Province: B" ∧
        assocLookup (parse_record "County: A | Province: B") "province" =
          extractSubfield "A | Province: B" "province" ∧
        assocLookup (parse_record "County: A | Province: B") "county" =
          extractSubfield "A | Province: B" "county" ∧
        assocLookup (parse_record "County: A | Province: B") "municipality" =
          extractSubfield "A | Province: B" "municipality" ∧
        assocLookup (parse_record "County: A | Province: B") "parish" =
          extractSubfield "A | Province: B" "parish") :=
  ⟨by decide, c7_province_line_amended _ _ (by decide)⟩

/-- **C8** counterexample: the map holding only the composite
`province_line` key serializes (via its label `Province`) and re-parses to
a map with an extra derived `county` entry, so round-trip idempotence
fails for arbitrary `ParsedFields` maps. -/
theorem c8_counterexample :
    parse_record (serializeFields [("province_line", "County: A")]) =
        [("province_line", "County: A"), ("county", "A")] ∧
      parse_record (serializeFields [("province_line", "County: A")]) ≠
        [("province_line", "County: A")] := by
  constructor
  · decide
  · decide

/-- **C8** (corrected).  Serializing and re-parsing reproduces the map for
maps with pairwise-distinct keys whose every entry has a serializing
label, is not the composite `province_line` key, carries a non-empty,
trimmed, single-line value, and — when the key is subject to URL
stripping — a value without URL matches. -/
theorem c8_roundtrip_amended (m : List (String × String))
    (hnd : (m.map Prod.fst).Nodup)
    (hm : ∀ kv ∈ m, goodEntry kv) :
    parse_record (serializeFields m) = m := by
  have hraw : rawParse (serializeFields m) = m := by
    unfold rawParse
    dsimp only
    rw [pySplitlines_serialize m hm, map_pyRstrip_id m hm]
    cases m with
    | nil => rfl
    | cons kv t =>
      obtain ⟨k, v⟩ := kv
      have hkv := hm (k, v) (List.mem_cons_self _ _)
      obtain ⟨lab, hlab⟩ := Option.isSome_iff_exists.mp hkv.1
      simp only [List.map_cons, List.foldl_cons]
      rw [hlab, Option.getD_some]
      rw [stepLine_serialized _ lab k v (labelFor_mem hlab) hkv.2.2.1]
      rw [show (flushState ⟨[], none, []⟩).result = [] from rfl]
      have hl := parse_loop_serialized t [] k v (by simpa using hnd) hkv
        fun kv2 hkv2 => hm kv2 (List.mem_cons_of_mem _ hkv2)
      simpa using hl
  unfold parse_record
  rw [hraw]
  have hprov : postProvince m = m := by
    unfold postProvince
    rw [lookup_none_of_all_ne m "province_line" fun kv hkv => (hm kv hkv).2.1]
  rw [hprov]
  apply postUrls_id
  intro kv hkv hurl
  have hgv := (hm kv hkv).2.2.1
  rcases (hm kv hkv).2.2.2 with hco | hsub
  · rw [hco] at hurl
    exact absurd hurl (by simp)
  · rw [hsub]
    exact hgv.2.1

theorem c8_roundtrip_amended_witness :
    ((([("class", "Stensättning"), ("description_sv", "Rund stensättning, 5 m diam")] :
          List (String × String)).map Prod.fst).Nodup ∧
        (∀ kv ∈ ([("class", "Stensättning"),
            ("description_sv", "Rund stensättning, 5 m diam")] :
              List (String × String)), goodEntry kv)) ∧
      parse_record (serializeFields
          [("class", "Stensättning"), ("description_sv", "Rund stensättning, 5 m diam")]) =
        [("class", "Stensättning"), ("description_sv", "Rund stensättning, 5 m diam")] :=
  ⟨⟨by decide, by decide⟩, c8_roundtrip_amended _ (by decide) (by decide)⟩

/-- **C10** (confirmed).  Each feature hint contributes at most 1 to
`detail_score` (the hint part is the number of vocabulary keywords that
occur, bounded by the vocabulary's size 15), and `detail_score` never
exceeds 5 + 15 = 20. -/
theorem c10_detail_score_bounds (desc_sv : String) :
    hintCount desc_sv ≤ FEATURE_HINTS.length ∧ FEATURE_HINTS.length = 15 ∧
      detail_score desc_sv ≤ 20 := by
  refine ⟨List.length_filter_le _ _, rfl, ?_⟩
  unfold detail_score
  split
  · exact Nat.zero_le 20
  · have h1 : min 5 (measureMatches desc_sv).length ≤ 5 := Nat.min_le_left _ _
    have h2 : hintCount desc_sv ≤ 15 := List.length_filter_le _ _
    omega

end Fornlamningar
